import Mathlib

/-!
Verification of the FLVER structured-record reader (`src/format/src/flver/mod.rs`)
and the virtual-path normalization of the extraction tool
(`src/cli/src/bin/dcx-extract.rs`) from the `fstools-rs` repository.

Buffers are byte lists (`List Nat`); prefix casts of the zerocopy crate are modelled as
their documented byte-level semantics (the structs involved are `repr(packed)`,
so alignment never fails for them); panics (slice indexing out of bounds) are
modelled as an explicit `panic` outcome distinct from the `io::Error` returns.
-/

set_option autoImplicit false
set_option maxRecDepth 100000

namespace FsTools

/-- A byte value (0–255 in all real buffers). -/
abbrev Byte := Nat

/-- A byte buffer, as handed to `Flver::from` / `Flver::parse`. -/
abbrev Buffer := List Byte

/-- The byte-order tag: the `LE` / `BE` type parameters of `byteorder`. -/
inductive Endian
  | le
  | be
deriving DecidableEq, Repr

/-- Little-endian decoding of a 4-byte field (`byteorder::LE::read_u32`).
The catch-all 0 never arises on fields cut from a complete header. -/
def u32le : Buffer → Nat
  | [b0, b1, b2, b3] => b0 + b1 * 256 + b2 * 65536 + b3 * 16777216
  | _ => 0

/-- Big-endian decoding of a 4-byte field (`byteorder::BE::read_u32`). -/
def u32be : Buffer → Nat
  | [b0, b1, b2, b3] => b3 + b2 * 256 + b1 * 65536 + b0 * 16777216
  | _ => 0

/-- Decoding per the byte-order tag, as in `U32<O>::get`. -/
def u32 : Endian → Buffer → Nat
  | .le, bs => u32le bs
  | .be, bs => u32be bs

/-- The field layout of `FlverHeaderData<O>` (`repr(packed)`), in declaration
order, with the size of each field in bytes (`U32`/`F32` are 4 bytes, `Padding<N>`
is `N` bytes). Offsets below are computed from this list, not asserted. -/
def flverHeaderFields : List (String × Nat) :=
  [("padding0", 8),
   ("version", 4),
   ("data_offset", 4),
   ("data_length", 4),
   ("dummy_count", 4),
   ("material_count", 4),
   ("bone_count", 4),
   ("mesh_count", 4),
   ("vertex_buffer_count", 4),
   ("bounding_box_min", 12),
   ("bounding_box_max", 12),
   ("face_count", 4),
   ("total_face_count", 4),
   ("vertex_index_size", 1),
   ("unicode", 1),
   ("_unk4a", 1),
   ("_unk4b", 1),
   ("_unk4c", 4),
   ("face_set_count", 4),
   ("buffer_layout_count", 4),
   ("texture_count", 4),
   ("_unk5c", 1),
   ("_unk5d", 1),
   ("_padding1", 10),
   ("_unk68", 4),
   ("_padding2", 20)]

/-- Byte offset of a named field: the sum of the sizes declared before it. -/
def fieldOffset : List (String × Nat) → String → Nat
  | [], _ => 0
  | (n, sz) :: rest, name => if n = name then 0 else sz + fieldOffset rest name

/-- Size in bytes of a named field. -/
def fieldSizeOf : List (String × Nat) → String → Nat
  | [], _ => 0
  | (n, sz) :: rest, name => if n = name then sz else fieldSizeOf rest name

/-- Size of a packed struct (`size_of`): the sum of its field sizes. -/
def structSize (fields : List (String × Nat)) : Nat :=
  (fields.map Prod.snd).sum

/-- Value of `size_of::<FlverHeaderData<O>>()`. -/
def flverHeaderSize : Nat := structSize flverHeaderFields

/-- The raw bytes of a named field of a `FlverHeaderData` byte chunk. -/
def fieldBytes (name : String) (header : Buffer) : Buffer :=
  (header.drop (fieldOffset flverHeaderFields name)).take
    (fieldSizeOf flverHeaderFields name)

/-- Getter `FlverHeader::version` on `FlverHeaderData`:
`self.version.get()`, decoding the 4 bytes of the `version` field per `O`. -/
def FlverHeaderData.version (e : Endian) (header : Buffer) : Nat :=
  u32 e (fieldBytes "version" header)

/-- Getter `FlverHeader::dummy_count` on `FlverHeaderData`:
`self.dummy_count.get()`. -/
def FlverHeaderData.dummy_count (e : Endian) (header : Buffer) : Nat :=
  u32 e (fieldBytes "dummy_count" header)

/-- Semantics of `zerocopy::Ref::<&[u8], T>::new_from_prefix` for a packed
(align-1) `T` of size `size`: succeeds iff the buffer holds at least `size`
bytes, splitting it into the struct bytes and the rest. -/
def refFromPrefixSplit (size : Nat) (bytes : Buffer) : Option (Buffer × Buffer) :=
  if size ≤ bytes.length then some (bytes.take size, bytes.drop size) else none

/-- Semantics of the zerocopy `slice_from_prefix` cast for records of size
`elemSize`: succeeds iff `count * elemSize` bytes are available, yielding the
`count` record chunks in order and the remaining bytes. -/
def sliceFromPrefixSplit (elemSize count : Nat) (bytes : Buffer) :
    Option (List Buffer × Buffer) :=
  if count * elemSize ≤ bytes.length then
    some ((List.range count).map (fun i => (bytes.drop (i * elemSize)).take elemSize),
          bytes.drop (count * elemSize))
  else none

/-- Model of `FlverInner`: the borrowed header bytes and the borrowed dummy
records. A dummy record is kept as its byte chunk: `FlverDummyData`
(`src/format/src/flver/dummy.rs`, not under `src/`) is a fixed-size
`FromBytes` record whose accessors are functions of those bytes; its size is
the parameter `ds` below. The byte-order tag `O` lives in the `Flver` variant. -/
structure FlverInner where
  header : Buffer
  dummys : List Buffer
deriving DecidableEq, Repr

/-- Model of the `Flver` enum: either endianness instantiation of
`FlverInner`. -/
inductive Flver
  | littleEndian (inner : FlverInner)
  | bigEndian (inner : FlverInner)
deriving DecidableEq, Repr

/-- The byte-order tag carried by a `Flver` variant. -/
def Flver.endianOf : Flver → Endian
  | .littleEndian _ => .le
  | .bigEndian _ => .be

/-- The wrapped `FlverInner` of either variant. -/
def Flver.inner : Flver → FlverInner
  | .littleEndian inner => inner
  | .bigEndian inner => inner

/-- The `io::Error` values `Flver::from` can return. -/
inductive FlverError
  | magicMismatch
  | notUnaligned
deriving DecidableEq, Repr

/-- Outcome of `Flver::from`: a panic (out-of-bounds slice), an `io::Error`,
or the parsed view. -/
inductive FlverOutcome
  | panic
  | error (e : FlverError)
  | ok (v : Flver)
deriving DecidableEq, Repr

/-- The magic tag `b"FLVER\0"`. -/
def flverMagic : Buffer := [0x46, 0x4C, 0x56, 0x45, 0x52, 0x00]

/-- Model of `Flver::parse::<O>`: cast the header off the front of the buffer, read
`dummy_count` through it, then cast that many dummy records off the rest.
`ds` is `size_of::<FlverDummyData<O>>()` (its definition is not under
`src/`), kept as a parameter. -/
def Flver.parse (ds : Nat) (e : Endian) (data : Buffer) : Option FlverInner :=
  match refFromPrefixSplit flverHeaderSize data with
  | none => none
  | some (headerBytes, dummyBytes) =>
    let dummyCnt := FlverHeaderData.dummy_count e headerBytes
    match sliceFromPrefixSplit ds dummyCnt dummyBytes with
    | none => none
    | some (dummys, _next) => some ⟨headerBytes, dummys⟩

/-- Model of `Flver::from`. The first statement is `&data[..8]`, which panics when the
buffer is shorter than 8 bytes. `read_magic` is modelled from the spec
(`io_ext::ReadFormatsExt::read_magic` is not under `src/`): it reads the 6
magic bytes from that slice and fails closed unless they equal `b"FLVER\0"`
exactly. The next two bytes are the endianness marker; `[0x4C, 0x00]` selects
`LittleEndian` and any other value selects `BigEndian`. A `None` from `parse`
becomes the `io::Error` with message `"data buffer was not unaligned"`. -/
def Flver.fromBytes (ds : Nat) (data : Buffer) : FlverOutcome :=
  if 8 ≤ data.length then
    if data.take 6 = flverMagic then
      if (data.drop 6).take 2 = [0x4C, 0x00] then
        match Flver.parse ds .le data with
        | some inner => .ok (.littleEndian inner)
        | none => .error .notUnaligned
      else
        match Flver.parse ds .be data with
        | some inner => .ok (.bigEndian inner)
        | none => .error .notUnaligned
    else .error .magicMismatch
  else .panic

/-- Model of `FlverData::dummy` for `FlverInner`: `&self.dummys[index]`. The
slice index is bounds-checked; `none` models the index-out-of-range panic. -/
def FlverInner.dummy (inner : FlverInner) (index : Nat) : Option Buffer :=
  inner.dummys[index]?

/-- Model of `Flver::dummy`: dispatch to the inner view of either variant. -/
def Flver.dummy (f : Flver) (index : Nat) : Option Buffer :=
  match f with
  | .littleEndian inner => inner.dummy index
  | .bigEndian inner => inner.dummy index

/-- The `Deref`-forwarded `FlverHeader::version` getter on a parsed view. -/
def Flver.version : Flver → Nat
  | .littleEndian inner => FlverHeaderData.version .le inner.header
  | .bigEndian inner => FlverHeaderData.version .be inner.header

/-- The `Deref`-forwarded `FlverHeader::dummy_count` getter on a parsed view. -/
def Flver.dummy_count : Flver → Nat
  | .littleEndian inner => FlverHeaderData.dummy_count .le inner.header
  | .bigEndian inner => FlverHeaderData.dummy_count .be inner.header

/-- Model of `entry.path.replace("N:\\", "")` in `dcx-extract.rs`: the string
`replace` removes every non-overlapping occurrence of the literal `N:\`,
scanning left to right. Paths are character lists; at each position, a match
of the three pattern characters is consumed, otherwise the character is kept
and the scan moves on. -/
def stripDriveN : List Char → List Char
  | [] => []
  | [c] => [c]
  | [c1, c2] => [c1, c2]
  | c1 :: c2 :: c3 :: rest =>
    if c1 = 'N' ∧ c2 = ':' ∧ c3 = '\\' then stripDriveN rest
    else c1 :: stripDriveN (c2 :: c3 :: rest)

/-- Model of `.replace('\\', "/")`: turn one character into a slash if it is a
backslash. -/
def backslashToSlash (c : Char) : Char := if c = '\\' then '/' else c

/-- The whole trimming expression of `dcx-extract.rs`, line 44:
`entry.path.replace("N:\\", "").replace('\\', "/")`. -/
def trimPath (p : List Char) : List Char :=
  (stripDriveN p).map backslashToSlash

/-- One read-only operation of the reader API, as invoked over a shared
buffer: a full parse, a header getter through the parsed view, or a dummy
record access through the parsed view. -/
inductive FlverOp
  | parseBuf (ds : Nat)
  | readVersion (ds : Nat)
  | readDummyCount (ds : Nat)
  | readDummy (ds : Nat) (index : Nat)

/-- Observation produced by one operation. -/
inductive FlverObs
  | parsed (o : FlverOutcome)
  | num (n : Option Nat)
  | record (r : Option Buffer)

/-- Interpretation of one operation against the buffer. The buffer is
threaded explicitly so that mutation would be expressible: each operation
returns the buffer it leaves behind next to its observation. Every
right-hand side is the corresponding source operation, which only reads
the borrowed bytes. -/
def applyFlverOp : FlverOp → Buffer → Buffer × FlverObs
  | .parseBuf ds, b => (b, .parsed (Flver.fromBytes ds b))
  | .readVersion ds, b =>
    (b, .num (match Flver.fromBytes ds b with
              | .ok v => some v.version
              | _ => none))
  | .readDummyCount ds, b =>
    (b, .num (match Flver.fromBytes ds b with
              | .ok v => some v.dummy_count
              | _ => none))
  | .readDummy ds i, b =>
    (b, .record (match Flver.fromBytes ds b with
                 | .ok v => v.dummy i
                 | _ => none))

/-- Run a sequence of operations, threading the buffer through. -/
def runFlverOps : List FlverOp → Buffer → Buffer
  | [], b => b
  | op :: rest, b => runFlverOps rest (applyFlverOp op b).1

/-- A minimal well-formed little-endian fixture: magic, the marker `L\0`,
and a zeroed remainder of the 128-byte header (so `dummy_count = 0`). -/
def sampleLE : Buffer := flverMagic ++ [0x4C, 0x00] ++ List.replicate 120 0

/-- The same layout with the big-endian marker `B\0`. -/
def sampleBE : Buffer := flverMagic ++ [0x42, 0x00] ++ List.replicate 120 0

/-- The same layout with a marker that is neither the little-endian marker
`L\0` nor the big-endian marker `B\0`. -/
def sampleZeroMarker : Buffer := flverMagic ++ [0x00, 0x00] ++ List.replicate 120 0

/-- A little-endian fixture declaring one dummy record (`dummy_count = 1`
at offset 20) with 4 extra bytes after the 128-byte header. -/
def sampleOneDummy : Buffer :=
  flverMagic ++ [0x4C, 0x00] ++ List.replicate 12 0 ++ [1, 0, 0, 0] ++
    List.replicate 104 0 ++ [10, 11, 12, 13]

/-! ### Helper lemmas -/

/-- Closed form of `Flver.parse` on a buffer long enough for the header. -/
theorem parse_spec (ds : Nat) (e : Endian) (data : Buffer)
    (hlen : flverHeaderSize ≤ data.length) :
    Flver.parse ds e data =
      if FlverHeaderData.dummy_count e (data.take flverHeaderSize) * ds ≤
          data.length - flverHeaderSize then
        some ⟨data.take flverHeaderSize,
          (List.range (FlverHeaderData.dummy_count e (data.take flverHeaderSize))).map
            (fun i => ((data.drop flverHeaderSize).drop (i * ds)).take ds)⟩
      else none := by
  simp only [Flver.parse, refFromPrefixSplit, if_pos hlen, sliceFromPrefixSplit,
    List.length_drop]
  by_cases hc : FlverHeaderData.dummy_count e (data.take flverHeaderSize) * ds ≤
      data.length - flverHeaderSize
  · simp only [if_pos hc]
  · simp only [if_neg hc]

/-- A successful `Flver.parse` needs the full fixed header. -/
theorem parse_some_length {ds : Nat} {e : Endian} {data : Buffer}
    {inner : FlverInner} (h : Flver.parse ds e data = some inner) :
    flverHeaderSize ≤ data.length := by
  by_contra hlt
  push_neg at hlt
  simp only [Flver.parse, refFromPrefixSplit, if_neg (Nat.not_le.mpr hlt)] at h
  exact Option.noConfusion h

/-- What a successful `Flver::from` guarantees: the buffer held the 8-byte
magic region, the magic matched, the marker selected the variant, and the
inner view is the one `parse` produced for that byte order. -/
theorem fromBytes_ok_elim {ds : Nat} {data : Buffer} {v : Flver}
    (h : Flver.fromBytes ds data = .ok v) :
    8 ≤ data.length ∧ data.take 6 = flverMagic ∧
      v.endianOf = (if (data.drop 6).take 2 = [0x4C, 0x00] then Endian.le
                    else Endian.be) ∧
      Flver.parse ds v.endianOf data = some v.inner := by
  unfold Flver.fromBytes at h
  split at h
  case isFalse => exact absurd h (by simp)
  case isTrue h8 =>
    refine ⟨h8, ?_⟩
    split at h
    case isFalse => exact absurd h (by simp)
    case isTrue hm =>
      refine ⟨hm, ?_⟩
      split at h
      case isTrue he =>
        rw [if_pos he]
        cases hp : Flver.parse ds .le data with
        | none => rw [hp] at h; exact absurd h (by simp)
        | some inner =>
          rw [hp] at h
          cases h
          exact ⟨rfl, hp⟩
      case isFalse he =>
        rw [if_neg he]
        cases hp : Flver.parse ds .be data with
        | none => rw [hp] at h; exact absurd h (by simp)
        | some inner =>
          rw [hp] at h
          cases h
          exact ⟨rfl, hp⟩

/-- Rebuilding a successful `Flver::from` outcome from its pieces. -/
theorem fromBytes_ok_intro {ds : Nat} {data : Buffer} {v : Flver}
    (h8 : 8 ≤ data.length) (hm : data.take 6 = flverMagic)
    (he : v.endianOf = (if (data.drop 6).take 2 = [0x4C, 0x00] then Endian.le
                        else Endian.be))
    (hp : Flver.parse ds v.endianOf data = some v.inner) :
    Flver.fromBytes ds data = .ok v := by
  unfold Flver.fromBytes
  rw [if_pos h8, if_pos hm]
  by_cases hmark : (data.drop 6).take 2 = [0x4C, 0x00]
  · rw [if_pos hmark]
    rw [if_pos hmark] at he
    cases v with
    | littleEndian inner =>
      simp only [Flver.endianOf, Flver.inner] at hp
      rw [hp]
    | bigEndian inner => exact Endian.noConfusion he
  · rw [if_neg hmark]
    rw [if_neg hmark] at he
    cases v with
    | littleEndian inner => exact Endian.noConfusion he
    | bigEndian inner =>
      simp only [Flver.endianOf, Flver.inner] at hp
      rw [hp]

end FsTools

namespace FsTools

/-- The `dummy_count` getter of a view reads the header per the variant tag. -/
theorem Flver.dummy_count_eq (v : Flver) :
    v.dummy_count = FlverHeaderData.dummy_count v.endianOf v.inner.header := by
  cases v <;> rfl

/-- The `version` getter of a view reads the header per the variant tag. -/
theorem Flver.version_eq (v : Flver) :
    v.version = FlverHeaderData.version v.endianOf v.inner.header := by
  cases v <;> rfl

/-- Record access on a view is the bounds-checked lookup on the inner slice. -/
theorem Flver.dummy_eq (v : Flver) (i : Nat) :
    Flver.dummy v i = v.inner.dummys[i]? := by
  cases v <;> rfl

/-- A list of length four is literally four elements. -/
theorem list_eq_four {l : Buffer} (h : l.length = 4) :
    ∃ a b c d, l = [a, b, c, d] := by
  rcases l with _ | ⟨a, _ | ⟨b, _ | ⟨c, _ | ⟨d, _ | ⟨e, t⟩⟩⟩⟩⟩
  · simp at h
  · simp at h
  · simp at h
  · simp at h
  · exact ⟨a, b, c, d, rfl⟩
  · simp [List.length_cons] at h

/-- Reversing four bytes swaps the two decodings. -/
theorem u32be_reverse_four (a b c d : Byte) :
    u32be ([a, b, c, d].reverse) = u32le [a, b, c, d] := rfl

/-- The version field is the four bytes at offset 8 of the header chunk. -/
theorem fieldBytes_version_eq (h : Buffer) :
    fieldBytes "version" h = (h.drop 8).take 4 := rfl

/-- The dummy_count field is the four bytes at offset 20 of the header chunk. -/
theorem fieldBytes_dummy_count_eq (h : Buffer) :
    fieldBytes "dummy_count" h = (h.drop 20).take 4 := rfl

/-- A match of the pattern `N:\` is consumed by the scan. -/
theorem stripDriveN_strip (rest : List Char) :
    stripDriveN ('N' :: ':' :: '\\' :: rest) = stripDriveN rest := by
  simp [stripDriveN]

/-- A position where the pattern `N:\` does not match keeps its character. -/
theorem stripDriveN_skip (c1 c2 c3 : Char) (rest : List Char)
    (h : ¬(c1 = 'N' ∧ c2 = ':' ∧ c3 = '\\')) :
    stripDriveN (c1 :: c2 :: c3 :: rest) = c1 :: stripDriveN (c2 :: c3 :: rest) := by
  simp only [stripDriveN]
  rw [if_neg h]

/-- On text free of colons the pattern `N:\` never matches, so the scan is
the identity. -/
theorem stripDriveN_no_colon : ∀ (l : List Char), ':' ∉ l → stripDriveN l = l
  | [], _ => rfl
  | [_], _ => rfl
  | [_, _], _ => rfl
  | c1 :: c2 :: c3 :: rest, h => by
    have hcond : ¬(c1 = 'N' ∧ c2 = ':' ∧ c3 = '\\') := by
      rintro ⟨-, h2, -⟩
      subst h2
      exact h (by simp)
    have hrest : ':' ∉ c2 :: c3 :: rest := fun hm => h (List.mem_cons_of_mem _ hm)
    rw [stripDriveN_skip c1 c2 c3 rest hcond,
      stripDriveN_no_colon (c2 :: c3 :: rest) hrest]

/-- Replacing backslashes by slashes is injective on slash-free text. -/
theorem map_backslash_inj : ∀ (r1 r2 : List Char), '/' ∉ r1 → '/' ∉ r2 →
    r1.map backslashToSlash = r2.map backslashToSlash → r1 = r2
  | [], [], _, _, _ => rfl
  | [], c :: t, _, _, h => by simp at h
  | c :: t, [], _, _, h => by simp at h
  | c :: t, c2 :: t2, h1, h2, h => by
    simp only [List.map_cons, List.cons.injEq] at h
    have hcne : c ≠ '/' := fun hc => h1 (hc ▸ List.mem_cons_self _ _)
    have hc2ne : c2 ≠ '/' := fun hc => h2 (hc ▸ List.mem_cons_self _ _)
    have htne : '/' ∉ t := fun hm => h1 (List.mem_cons_of_mem _ hm)
    have ht2ne : '/' ∉ t2 := fun hm => h2 (List.mem_cons_of_mem _ hm)
    have hc : c = c2 := by
      have e1 := h.1
      by_cases hb : c = '\\'
      · by_cases hb2 : c2 = '\\'
        · rw [hb, hb2]
        · rw [hb] at e1
          simp only [backslashToSlash, if_pos rfl, if_neg hb2] at e1
          exact absurd e1.symm hc2ne
      · by_cases hb2 : c2 = '\\'
        · rw [hb2] at e1
          simp only [backslashToSlash, if_pos rfl, if_neg hb] at e1
          exact absurd e1 hcne
        · simpa only [backslashToSlash, if_neg hb, if_neg hb2] using e1
    rw [hc, map_backslash_inj t t2 htne ht2ne h.2]

/-- A successful parse is stable under appending bytes to the buffer. -/
theorem parse_append {ds : Nat} {e : Endian} {b : Buffer} (ext : Buffer)
    {inner : FlverInner} (h : Flver.parse ds e b = some inner) :
    Flver.parse ds e (b ++ ext) = some inner := by
  have hlen := parse_some_length h
  have hlen2 : flverHeaderSize ≤ (b ++ ext).length := by
    simp only [List.length_append]
    omega
  have htake : (b ++ ext).take flverHeaderSize = b.take flverHeaderSize :=
    List.take_append_of_le_length hlen
  rw [parse_spec ds e b hlen] at h
  rw [parse_spec ds e (b ++ ext) hlen2, htake]
  by_cases hc : FlverHeaderData.dummy_count e (b.take flverHeaderSize) * ds ≤
      b.length - flverHeaderSize
  · rw [if_pos hc] at h
    have hc2 : FlverHeaderData.dummy_count e (b.take flverHeaderSize) * ds ≤
        (b ++ ext).length - flverHeaderSize := by
      simp only [List.length_append]
      omega
    rw [if_pos hc2]
    have hdropapp : (b ++ ext).drop flverHeaderSize = b.drop flverHeaderSize ++ ext :=
      List.drop_append_of_le_length hlen
    have hmaps : (List.range (FlverHeaderData.dummy_count e
          (b.take flverHeaderSize))).map
          (fun i => (((b ++ ext).drop flverHeaderSize).drop (i * ds)).take ds) =
        (List.range (FlverHeaderData.dummy_count e (b.take flverHeaderSize))).map
          (fun i => ((b.drop flverHeaderSize).drop (i * ds)).take ds) := by
      apply List.map_congr_left
      intro i hi
      have hi2 : i + 1 ≤ FlverHeaderData.dummy_count e (b.take flverHeaderSize) :=
        List.mem_range.mp hi
      have hmul : (i + 1) * ds ≤
          FlverHeaderData.dummy_count e (b.take flverHeaderSize) * ds :=
        Nat.mul_le_mul_right ds hi2
      have hidssucc : i * ds + ds ≤ b.length - flverHeaderSize := by
        calc i * ds + ds = (i + 1) * ds := by ring
        _ ≤ _ := le_trans hmul hc
      have hids : i * ds ≤ (b.drop flverHeaderSize).length := by
        simp only [List.length_drop]
        omega
      rw [hdropapp, List.drop_append_of_le_length hids,
        List.take_append_of_le_length (by simp only [List.length_drop]; omega)]
    rw [hmaps]
    exact h
  · rw [if_neg hc] at h
    exact Option.noConfusion h

/-! ### Claim theorems -/

/-- C2: the claim is right and the code is wrong. `Flver::from` is specified
to reject every buffer shorter than the fixed record size with a truncation
error and never panic, but its first statement `&data[..8]` is an
out-of-bounds slice on any buffer shorter than 8 bytes, which panics. Shown
on the empty buffer and on a 7-byte buffer that even begins with valid magic
bytes; an 8-byte buffer (shorter than the 128-byte header but long enough
for the slice) does return an error as specified. -/
theorem flver_from_short_buffer_panics :
    Flver.fromBytes 64 [] = .panic ∧
    Flver.fromBytes 64 [0x46, 0x4C, 0x56, 0x45, 0x52, 0x00, 0x4C] = .panic ∧
    Flver.fromBytes 64 (flverMagic ++ [0x4C, 0x00]) = .error .notUnaligned := by
  decide

/-- C7 counterexample: parsing a buffer whose leading bytes differ from the
magic tag does not always return an error — a 7-byte wrong-magic buffer makes
`Flver::from` panic on the initial `&data[..8]` slice instead. -/
theorem flver_wrong_magic_short_panics :
    Flver.fromBytes 64 [9, 9, 9, 9, 9, 9, 9] = .panic ∧
    Flver.fromBytes 64 [9, 9, 9, 9, 9, 9, 9] ≠ .error .magicMismatch ∧
    Flver.fromBytes 64 [9, 9, 9, 9, 9, 9, 9] ≠ .error .notUnaligned := by
  decide

/-- C7 (amended): for every buffer of length at least 8, if the six leading
bytes differ from the literal tag `FLVER\0` then `Flver::from` returns the
magic-mismatch error and no view is produced; and whenever a view is
produced, the magic matched exactly. -/
theorem flver_magic_validation :
    (∀ (ds : Nat) (data : Buffer), 8 ≤ data.length →
      data.take 6 ≠ flverMagic →
      Flver.fromBytes ds data = .error .magicMismatch) ∧
    (∀ (ds : Nat) (data : Buffer) (v : Flver),
      Flver.fromBytes ds data = .ok v → data.take 6 = flverMagic) := by
  constructor
  · intro ds data h8 hm
    unfold Flver.fromBytes
    rw [if_pos h8, if_neg hm]
  · intro ds data v h
    exact (fromBytes_ok_elim h).2.1

/-- C7 witness: both parts of the magic-validation theorem applied at
concrete buffers. -/
theorem flver_magic_validation_witness :
    Flver.fromBytes 64 (List.replicate 8 9) = .error .magicMismatch ∧
    List.take 6 sampleLE = flverMagic :=
  ⟨flver_magic_validation.1 64 (List.replicate 8 9) (by decide) (by decide),
   flver_magic_validation.2 64 sampleLE
     (.littleEndian ⟨sampleLE, []⟩) (by decide)⟩

/-- C1 counterexample: with marker bytes `[0x00, 0x00]` — neither the
little-endian marker `L\0 = [0x4C, 0x00]` nor the big-endian marker
`B\0 = [0x42, 0x00]` — the parse does not fail with an unknown-endianness
error: it succeeds and yields a big-endian view. -/
theorem flver_unknown_marker_is_bigendian :
    Flver.fromBytes 64 sampleZeroMarker =
      .ok (.bigEndian ⟨sampleZeroMarker, []⟩) := by
  decide

/-- C1 (amended): endianness detection maps the two-byte marker after the
magic tag to LittleEndian exactly when it is `[0x4C, 0x00]`, and to BigEndian
for every other value; no marker value fails the parse — once the magic
matched, the only error `Flver::from` can return is the one for a failed
header/record cast, never an unknown-endianness error. -/
theorem flver_endianness_selection :
    (∀ (ds : Nat) (data : Buffer) (v : Flver), Flver.fromBytes ds data = .ok v →
      v.endianOf = (if (data.drop 6).take 2 = [0x4C, 0x00] then Endian.le
                    else Endian.be)) ∧
    (∀ (ds : Nat) (data : Buffer), 8 ≤ data.length → data.take 6 = flverMagic →
      (∃ v, Flver.fromBytes ds data = .ok v) ∨
        Flver.fromBytes ds data = .error .notUnaligned) := by
  constructor
  · intro ds data v h
    exact (fromBytes_ok_elim h).2.2.1
  · intro ds data h8 hm
    unfold Flver.fromBytes
    rw [if_pos h8, if_pos hm]
    by_cases hmark : (data.drop 6).take 2 = [0x4C, 0x00]
    · rw [if_pos hmark]
      cases hp : Flver.parse ds .le data with
      | none => exact Or.inr rfl
      | some inner => exact Or.inl ⟨.littleEndian inner, rfl⟩
    · rw [if_neg hmark]
      cases hp : Flver.parse ds .be data with
      | none => exact Or.inr rfl
      | some inner => exact Or.inl ⟨.bigEndian inner, rfl⟩

/-- C1 witness: the selection theorem applied at a big-endian fixture (first
part) and at a little-endian fixture (second part). -/
theorem flver_endianness_selection_witness :
    (Flver.bigEndian ⟨sampleBE, []⟩).endianOf =
      (if (sampleBE.drop 6).take 2 = [0x4C, 0x00] then Endian.le
       else Endian.be) ∧
    ((∃ v, Flver.fromBytes 64 sampleLE = .ok v) ∨
      Flver.fromBytes 64 sampleLE = .error .notUnaligned) :=
  ⟨flver_endianness_selection.1 64 sampleBE (.bigEndian ⟨sampleBE, []⟩)
      (by decide),
   flver_endianness_selection.2 64 sampleLE (by decide) (by decide)⟩

end FsTools

namespace FsTools

/-- C3: with `cnt` the value decoded from the dummy_count header field and
`ds` the dummy record size, casting the trailing record array fails (the
parse returns no view, which `Flver::from` surfaces as its truncation error)
exactly when `cnt * ds` exceeds the bytes remaining after the 128-byte
header; when it fits within (or equals) the remainder, parsing succeeds and
exactly `cnt` records are accessible — every index below `cnt` yields a
record and every other index yields nothing. -/
theorem flver_dummy_array_bounds (ds : Nat) (e : Endian) (data : Buffer)
    (_hds : 0 < ds) (hlen : flverHeaderSize ≤ data.length) :
    (data.length - flverHeaderSize <
        FlverHeaderData.dummy_count e (data.take flverHeaderSize) * ds →
      Flver.parse ds e data = none) ∧
    (FlverHeaderData.dummy_count e (data.take flverHeaderSize) * ds ≤
        data.length - flverHeaderSize →
      ∃ inner, Flver.parse ds e data = some inner ∧
        inner.dummys.length =
          FlverHeaderData.dummy_count e (data.take flverHeaderSize) ∧
        (∀ i, i < FlverHeaderData.dummy_count e (data.take flverHeaderSize) →
          (inner.dummy i).isSome = true) ∧
        (∀ i, FlverHeaderData.dummy_count e (data.take flverHeaderSize) ≤ i →
          inner.dummy i = none)) := by
  rw [parse_spec ds e data hlen]
  constructor
  · intro hover
    rw [if_neg (Nat.not_le.mpr hover)]
  · intro hfit
    rw [if_pos hfit]
    refine ⟨_, rfl, ?_, ?_, ?_⟩
    · simp [List.length_map, List.length_range]
    · intro i hi
      simp [FlverInner.dummy, List.getElem?_map, List.getElem?_range hi]
    · intro i hi
      simp only [FlverInner.dummy]
      rw [List.getElem?_eq_none]
      simp only [List.length_map, List.length_range]
      exact hi

/-- C3 witness: the success side applied at a little-endian fixture with
`dummy_count = 1`, record size 4, and exactly 4 bytes after the header. -/
theorem flver_dummy_array_bounds_witness :
    ∃ inner, Flver.parse 4 .le sampleOneDummy = some inner ∧
      inner.dummys.length =
        FlverHeaderData.dummy_count .le (sampleOneDummy.take flverHeaderSize) ∧
      (∀ i, i < FlverHeaderData.dummy_count .le
          (sampleOneDummy.take flverHeaderSize) →
        (inner.dummy i).isSome = true) ∧
      (∀ i, FlverHeaderData.dummy_count .le
          (sampleOneDummy.take flverHeaderSize) ≤ i →
        inner.dummy i = none) :=
  (flver_dummy_array_bounds 4 .le sampleOneDummy (by decide) (by decide)).2
    (by decide)

/-- C4: on every successfully parsed view, the number of records equals the
dummy_count getter; requesting a record at an index at or beyond that count
fails the bounds check (`&self.dummys[index]` panics with the index
out-of-range failure and returns no bytes); and any successful access
returns one of the count-bounded records of the view, never bytes outside
that array. -/
theorem flver_dummy_index_safety (ds : Nat) (data : Buffer) (v : Flver)
    (h : Flver.fromBytes ds data = .ok v) :
    v.inner.dummys.length = v.dummy_count ∧
    (∀ i, v.dummy_count ≤ i → Flver.dummy v i = none) ∧
    (∀ i b, Flver.dummy v i = some b → b ∈ v.inner.dummys) := by
  obtain ⟨h8, hm, hend, hp⟩ := fromBytes_ok_elim h
  have hlen := parse_some_length hp
  rw [parse_spec ds v.endianOf data hlen] at hp
  by_cases hc : FlverHeaderData.dummy_count v.endianOf
      (data.take flverHeaderSize) * ds ≤ data.length - flverHeaderSize
  · rw [if_pos hc] at hp
    have hinner := (Option.some.inj hp).symm
    have hlenEq : v.inner.dummys.length = v.dummy_count := by
      rw [Flver.dummy_count_eq, hinner]
      simp [List.length_map, List.length_range]
    refine ⟨hlenEq, ?_, ?_⟩
    · intro i hi
      rw [Flver.dummy_eq, List.getElem?_eq_none]
      rw [hlenEq]
      exact hi
    · intro i b hb
      rw [Flver.dummy_eq] at hb
      exact List.getElem?_mem hb
  · rw [if_neg hc] at hp
    exact Option.noConfusion hp

/-- C4 witness: the safety theorem applied at the one-record fixture, with
both a failing access at index 1 and the record list of the view. -/
theorem flver_dummy_index_safety_witness :
    (Flver.littleEndian ⟨sampleOneDummy.take 128, [[10, 11, 12, 13]]⟩).inner.dummys.length =
      (Flver.littleEndian ⟨sampleOneDummy.take 128, [[10, 11, 12, 13]]⟩).dummy_count ∧
    (∀ i, (Flver.littleEndian ⟨sampleOneDummy.take 128, [[10, 11, 12, 13]]⟩).dummy_count ≤ i →
      Flver.dummy (.littleEndian ⟨sampleOneDummy.take 128, [[10, 11, 12, 13]]⟩) i = none) ∧
    (∀ i b, Flver.dummy (.littleEndian ⟨sampleOneDummy.take 128, [[10, 11, 12, 13]]⟩) i = some b →
      b ∈ (Flver.littleEndian ⟨sampleOneDummy.take 128, [[10, 11, 12, 13]]⟩).inner.dummys) :=
  flver_dummy_index_safety 4 sampleOneDummy
    (.littleEndian ⟨sampleOneDummy.take 128, [[10, 11, 12, 13]]⟩) (by decide)

/-- C5: two header chunks carrying the same logical field values, one in
little-endian and one in big-endian byte order (their 4-byte fields reversed
byte-for-byte), decode identically: the getters under the LittleEndian tag
on the first buffer return the same values as the getters under the
BigEndian tag on the second. -/
theorem flver_endian_swap_getters (h1 h2 : Buffer)
    (hlen1 : 24 ≤ h1.length)
    (hv : fieldBytes "version" h2 = (fieldBytes "version" h1).reverse)
    (hd : fieldBytes "dummy_count" h2 = (fieldBytes "dummy_count" h1).reverse) :
    FlverHeaderData.version .le h1 = FlverHeaderData.version .be h2 ∧
    FlverHeaderData.dummy_count .le h1 = FlverHeaderData.dummy_count .be h2 := by
  have hv4 : (fieldBytes "version" h1).length = 4 := by
    rw [fieldBytes_version_eq]
    simp only [List.length_take, List.length_drop]
    omega
  have hd4 : (fieldBytes "dummy_count" h1).length = 4 := by
    rw [fieldBytes_dummy_count_eq]
    simp only [List.length_take, List.length_drop]
    omega
  obtain ⟨a, b, c, d, hveq⟩ := list_eq_four hv4
  obtain ⟨a2, b2, c2, d2, hdeq⟩ := list_eq_four hd4
  constructor
  · show u32 .le (fieldBytes "version" h1) = u32 .be (fieldBytes "version" h2)
    rw [hv, hveq]
    exact (u32be_reverse_four a b c d).symm
  · show u32 .le (fieldBytes "dummy_count" h1) =
      u32 .be (fieldBytes "dummy_count" h2)
    rw [hd, hdeq]
    exact (u32be_reverse_four a2 b2 c2 d2).symm

/-- C5 witness: the swap theorem applied at two concrete 24-byte header
chunks whose version and dummy_count fields are byte-reversed images. -/
theorem flver_endian_swap_getters_witness :
    FlverHeaderData.version .le
        (List.replicate 8 0 ++ [1, 2, 3, 4] ++ List.replicate 8 0 ++ [5, 6, 7, 8]) =
      FlverHeaderData.version .be
        (List.replicate 8 0 ++ [4, 3, 2, 1] ++ List.replicate 8 0 ++ [8, 7, 6, 5]) ∧
    FlverHeaderData.dummy_count .le
        (List.replicate 8 0 ++ [1, 2, 3, 4] ++ List.replicate 8 0 ++ [5, 6, 7, 8]) =
      FlverHeaderData.dummy_count .be
        (List.replicate 8 0 ++ [4, 3, 2, 1] ++ List.replicate 8 0 ++ [8, 7, 6, 5]) :=
  flver_endian_swap_getters
    (List.replicate 8 0 ++ [1, 2, 3, 4] ++ List.replicate 8 0 ++ [5, 6, 7, 8])
    (List.replicate 8 0 ++ [4, 3, 2, 1] ++ List.replicate 8 0 ++ [8, 7, 6, 5])
    (by decide) (by decide) (by decide)

end FsTools

namespace FsTools

/-- C6 counterexample: the code only strips the literal `N:\` — a well-formed
virtual path with drive letter `M` keeps its prefix, so normalization does
not strip the drive-letter prefix for every drive letter. -/
theorem trimPath_other_drive_not_stripped :
    trimPath ("M:\\x.dat".toList) = "M:/x.dat".toList ∧
    trimPath ("M:\\x.dat".toList) ≠ "x.dat".toList := by
  decide

/-- C6 (amended): for well-formed virtual paths whose drive letter is `N`
(the only drive prefix the code replaces) and whose remainder is free of
colons and forward slashes, normalization strips the `N:\` prefix and maps
every backslash to a slash — so `N:\a\b\c.dat` becomes `a/b/c.dat` and
`N:\x.dat` becomes `x.dat` — and the mapping is injective on these inputs. -/
theorem trimPath_normalization :
    trimPath ("N:\\a\\b\\c.dat".toList) = "a/b/c.dat".toList ∧
    trimPath ("N:\\x.dat".toList) = "x.dat".toList ∧
    (∀ rest : List Char, ':' ∉ rest →
      trimPath ('N' :: ':' :: '\\' :: rest) = rest.map backslashToSlash) ∧
    (∀ r1 r2 : List Char, ':' ∉ r1 → '/' ∉ r1 → ':' ∉ r2 → '/' ∉ r2 →
      trimPath ('N' :: ':' :: '\\' :: r1) = trimPath ('N' :: ':' :: '\\' :: r2) →
      r1 = r2) := by
  have hmain : ∀ rest : List Char, ':' ∉ rest →
      trimPath ('N' :: ':' :: '\\' :: rest) = rest.map backslashToSlash := by
    intro rest h
    unfold trimPath
    rw [stripDriveN_strip, stripDriveN_no_colon rest h]
  refine ⟨by decide, by decide, hmain, ?_⟩
  intro r1 r2 hc1 hs1 hc2 hs2 heq
  rw [hmain r1 hc1, hmain r2 hc2] at heq
  exact map_backslash_inj r1 r2 hs1 hs2 heq

/-- C6 witness: the normalization and injectivity parts applied at concrete
segment lists. -/
theorem trimPath_normalization_witness :
    trimPath ('N' :: ':' :: '\\' :: ['a', '\\', 'b']) =
      ['a', '\\', 'b'].map backslashToSlash ∧
    (['a', 'b'] : List Char) = ['a', 'b'] :=
  ⟨trimPath_normalization.2.2.1 ['a', '\\', 'b'] (by decide),
   trimPath_normalization.2.2.2 ['a', 'b'] ['a', 'b'] (by decide) (by decide)
     (by decide) (by decide) rfl⟩

/-- C8: running any sequence of parse and accessor operations against a
shared buffer leaves it byte-identical: every operation in the embedding
threads the buffer through unchanged, because each underlying source
operation only reads the borrowed bytes. -/
theorem flver_ops_buffer_immutable (ops : List FlverOp) (b : Buffer) :
    runFlverOps ops b = b := by
  induction ops generalizing b with
  | nil => rfl
  | cons op rest ih =>
    cases op <;> exact ih b

/-- C9: the fixed header region is exactly 128 bytes; the version field sits
at byte offset 8 and the dummy_count field at byte offset 20, each 4 bytes
wide (all computed from the declared field layout); and on every successful
parse the two getters decode exactly those buffer bytes per the view tag. -/
theorem flver_header_layout (ds : Nat) (data : Buffer) (v : Flver)
    (h : Flver.fromBytes ds data = .ok v) :
    flverHeaderSize = 128 ∧
    fieldOffset flverHeaderFields "version" = 8 ∧
    fieldSizeOf flverHeaderFields "version" = 4 ∧
    fieldOffset flverHeaderFields "dummy_count" = 20 ∧
    fieldSizeOf flverHeaderFields "dummy_count" = 4 ∧
    v.version = u32 v.endianOf ((data.drop 8).take 4) ∧
    v.dummy_count = u32 v.endianOf ((data.drop 20).take 4) := by
  obtain ⟨h8, hm, hend, hp⟩ := fromBytes_ok_elim h
  have hlen := parse_some_length hp
  rw [parse_spec ds v.endianOf data hlen] at hp
  by_cases hc : FlverHeaderData.dummy_count v.endianOf
      (data.take flverHeaderSize) * ds ≤ data.length - flverHeaderSize
  · rw [if_pos hc] at hp
    have hinner := (Option.some.inj hp).symm
    have hheader : v.inner.header = data.take flverHeaderSize := by rw [hinner]
    have h128 : flverHeaderSize = 128 := by decide
    have hver : (data.take flverHeaderSize).drop 8 = (data.drop 8).take 120 := by
      rw [h128, List.drop_take]
    have hcnt : (data.take flverHeaderSize).drop 20 = (data.drop 20).take 108 := by
      rw [h128, List.drop_take]
    refine ⟨by decide, by decide, by decide, by decide, by decide, ?_, ?_⟩
    · rw [Flver.version_eq, hheader]
      show u32 v.endianOf (fieldBytes "version" (data.take flverHeaderSize)) = _
      rw [fieldBytes_version_eq, hver, List.take_take]
      norm_num
    · rw [Flver.dummy_count_eq, hheader]
      show u32 v.endianOf (fieldBytes "dummy_count" (data.take flverHeaderSize)) = _
      rw [fieldBytes_dummy_count_eq, hcnt, List.take_take]
      norm_num
  · rw [if_neg hc] at hp
    exact Option.noConfusion hp

/-- C9 witness: the layout theorem applied at the little-endian fixture. -/
theorem flver_header_layout_witness :
    flverHeaderSize = 128 ∧
    fieldOffset flverHeaderFields "version" = 8 ∧
    fieldSizeOf flverHeaderFields "version" = 4 ∧
    fieldOffset flverHeaderFields "dummy_count" = 20 ∧
    fieldSizeOf flverHeaderFields "dummy_count" = 4 ∧
    (Flver.littleEndian ⟨sampleLE, []⟩).version =
      u32 (Flver.littleEndian ⟨sampleLE, []⟩).endianOf ((sampleLE.drop 8).take 4) ∧
    (Flver.littleEndian ⟨sampleLE, []⟩).dummy_count =
      u32 (Flver.littleEndian ⟨sampleLE, []⟩).endianOf ((sampleLE.drop 20).take 4) :=
  flver_header_layout 64 sampleLE (.littleEndian ⟨sampleLE, []⟩) (by decide)

/-- C10: parsing depends only on a prefix of the input — whenever
`Flver::from` succeeds on a buffer, it succeeds on that buffer extended by
any byte sequence and returns the very same view: same endianness variant,
same header bytes (hence identical header getters), and identical dummy
records. -/
theorem flver_from_prefix_extension (ds : Nat) (b ext : Buffer) (v : Flver)
    (h : Flver.fromBytes ds b = .ok v) :
    Flver.fromBytes ds (b ++ ext) = .ok v := by
  obtain ⟨h8, hm, hend, hp⟩ := fromBytes_ok_elim h
  have h8e : 8 ≤ (b ++ ext).length := by
    simp only [List.length_append]
    omega
  have hme : (b ++ ext).take 6 = flverMagic := by
    rw [List.take_append_of_le_length (by omega), hm]
  have hmark : ((b ++ ext).drop 6).take 2 = (b.drop 6).take 2 := by
    rw [List.drop_append_of_le_length (by omega),
      List.take_append_of_le_length (by simp only [List.length_drop]; omega)]
  exact fromBytes_ok_intro h8e hme (by rw [hmark]; exact hend) (parse_append ext hp)

/-- C10 witness: the prefix-extension theorem applied at the little-endian
fixture extended by three junk bytes. -/
theorem flver_from_prefix_extension_witness :
    Flver.fromBytes 64 (sampleLE ++ [1, 2, 3]) =
      .ok (.littleEndian ⟨sampleLE, []⟩) :=
  flver_from_prefix_extension 64 sampleLE [1, 2, 3]
    (.littleEndian ⟨sampleLE, []⟩) (by decide)

end FsTools
